import Mathlib

/-!
Verification of the climm mod-manager deployment engine (src/game.rs) against
its specification.  Filesystem paths are modelled as lists of components,
filesystem walks as ordered entry lists, and external effects (the 7z
extractor, the FOMOD selector, config persistence, directory creation) as
oracle parameters.  The in-memory mutation of `&mut self` state, including the
partial mutations left behind when an operation aborts with `?`, is modelled
by returning the updated state together with a success flag.
-/

namespace Climm

/-- A filesystem path, as its list of components. -/
abbrev Path := List String

/-- One entry of a filesystem walk: an absolute path and whether it is a
regular file. -/
structure FSEntry where
  path : Path
  isFile : Bool
deriving DecidableEq

/-- A filesystem, as the ordered list of entries a recursive walk would
visit (the walk order of `walkdir::WalkDir`). -/
abbrev FS := List FSEntry

/-- Component-wise test that `p` lies at or below `root`. -/
def isUnder (root p : Path) : Bool :=
  match root, p with
  | [], _ => true
  | _ :: _, [] => false
  | r :: rs, c :: cs => r == c && isUnder rs cs

/-- Model of `WalkDir::new(root)`: the entries of `fs` lying under `root`, in
`fs` order.  A nonexistent root yields no entries, matching the
`filter_map(Result::ok)` treatment of walk errors. -/
def walk (fs : FS) (root : Path) : List FSEntry :=
  fs.filter (fun e => isUnder root e.path)

/-- Splits a character list on dots; the groups between consecutive dots, in
order (the semantics of `str::split` with a dot separator). -/
def splitDot : List Char → List (List Char)
  | [] => [[]]
  | c :: rest =>
    match splitDot rest with
    | [] => []
    | g :: gs => if c == '.' then [] :: g :: gs else (c :: g) :: gs

/-- Model of Rust `Path::extension` applied to a final path component: the
part after the last dot; `none` when there is no dot or the only dot is the
leading one. -/
def extension (fileName : String) : Option String :=
  match splitDot fileName.data with
  | [] => none
  | [_] => none
  | [[], _] => none
  | ps => ps.getLast?.map String.mk

/-- Model of Rust `Path::file_stem` applied to a final path component: the
part before the last dot; the whole name when there is no dot or the only dot
is the leading one. -/
def fileStem (fileName : String) : String :=
  match splitDot fileName.data with
  | [] => fileName
  | [_] => fileName
  | [[], _] => fileName
  | ps => String.mk (List.intercalate ['.'] ps.dropLast)

/-- Component-wise test that `pat` is an initial segment of `l`. -/
def listStarts : List Char → List Char → Bool
  | [], _ => true
  | _ :: _, [] => false
  | a :: xs, b :: ys => a == b && listStarts xs ys

/-- Substring search: `containsSub hay pat` holds when `pat` occurs
contiguously inside `hay`. -/
def containsSub (hay pat : List Char) : Bool :=
  match hay with
  | [] => pat.isEmpty
  | _ :: t => listStarts pat hay || containsSub t pat

/-- Model of Rust `str::contains` for plain substring patterns. -/
def strContains (s pat : String) : Bool := containsSub s.data pat.data

/-- Model of Rust `str::to_lowercase`, character by character. -/
def strToLower (s : String) : String := String.mk (s.data.map Char.toLower)

/-- Record describing one managed mod; mirrors `ManagedMod` in src/game.rs. -/
structure ManagedMod where
  enabled : Bool
  extracted : Option Path
  archive : Path
  parts : List Path
deriving DecidableEq

/-- Mirrors `ManagedMod::new`: only the archive is set, the other fields take
the `Default` values (`false`, `None`, `[]`). -/
def ManagedMod.new (archive : Path) : ManagedMod :=
  { enabled := false, extracted := none, archive := archive, parts := [] }

/-- Mirrors `ManagedMod::part_paths`. -/
def ManagedMod.part_paths (m : ManagedMod) : List Path :=
  if m.parts.isEmpty then
    match m.extracted with
    | some extr => [extr]
    | none => []
  else m.parts

/-- Mirrors the `DeploymentMethod` enum. -/
inductive DeploymentMethod where
  | Hardlink
  | Symlink
deriving DecidableEq

/-- Mirrors `Config` in src/game.rs.  The `IndexMap` of mods is modelled as an
association list: insertion order is list order and keys are unique. -/
structure Config where
  game_folder : Path
  data_folder : Option Path
  plugins_file : Option Path
  deployment : DeploymentMethod
  mods : List (String × ManagedMod)
deriving DecidableEq

/-- Mirrors `Game`. -/
structure Game where
  name : String
  config : Config
deriving DecidableEq

/-- The error kinds of `crate::Error` relevant to the claims; `ioErr` stands
for any wrapped I/O, serialization or external-process error. -/
inductive Error where
  | AlreadyManaged (name : String)
  | UnknownGame (name : String)
  | UnknownMod (query : String)
  | NoActiveGame
  | ioErr
deriving DecidableEq

/-- Mirrors `Game::install_dir`. -/
def Game.install_dir (g : Game) : Path :=
  match g.config.data_folder with
  | some data => g.config.game_folder ++ data
  | none => g.config.game_folder

/-- Mirrors `Game::get_mod`: the query is lowercased, the first mod whose
lowercased name contains it is returned, else `UnknownMod` of the lowercased
query.  (The source binds the lowercased query once; it is inlined here.) -/
def Game.get_mod (g : Game) (name : String) : Except Error (String × ManagedMod) :=
  match g.config.mods.find? (fun p => strContains (strToLower p.1) (strToLower name)) with
  | some p => .ok p
  | none => .error (.UnknownMod (strToLower name))

/-- Mirrors `GlobalConfig`; the `HashSet` of game names is modelled as a
duplicate-free list. -/
structure GlobalConfig where
  active_game : Option String
  games : List String
deriving DecidableEq

/-- Model of `HashSet::insert` on the list model of the games set. -/
def setInsert (s : List String) (x : String) : List String :=
  if s.contains x then s else x :: s

/-- Mirrors `GlobalConfig::init_game`.  `save` and `mkdir` are oracles for the
fallible `Game::save` and `library::downloads_dir` calls; the mutations of
`active_game` and `games` happen before either call runs, matching the source
order, so they survive a failing save. -/
def GlobalConfig.init_game (g : GlobalConfig) (name : String) (folder : Path)
    (data plugins : Option Path) (save : Game → Bool) (mkdir : String → Bool) :
    GlobalConfig × Except Error Unit :=
  if g.games.contains name then (g, .error (.AlreadyManaged name))
  else
    ({ active_game := some name, games := setInsert g.games name },
     if save { name := name
               config := { game_folder := folder
                           data_folder := data
                           plugins_file := plugins
                           deployment := .Hardlink
                           mods := [] } } then
       if mkdir name then .ok () else .error .ioErr
     else .error .ioErr)

/-- Model of `IndexMap::insert`: an existing key keeps its position and has
its value replaced; a new key is appended at the end. -/
def indexInsert (mods : List (String × ManagedMod)) (key : String) (v : ManagedMod) :
    List (String × ManagedMod) :=
  if mods.any (fun p => p.1 == key) then
    mods.map (fun p => if p.1 == key then (key, v) else p)
  else mods ++ [(key, v)]

/-- Mirrors the effect of `Game::add` on `config.mods`: every path with a
final component is copied into the downloads directory and inserted under its
file stem as a fresh `ManagedMod` whose archive is the downloads copy.  The
on-disk copy or rename is not modelled. -/
def addMods (downloads : Path) (mods : List (String × ManagedMod)) (paths : List Path) :
    List (String × ManagedMod) :=
  paths.foldl (fun ms p =>
    match p.getLast? with
    | none => ms
    | some file_name =>
      indexInsert ms (fileStem file_name) (ManagedMod.new (downloads ++ [file_name]))) mods

/-- Mirrors the loop of `Game::extract`.  `ed` models `library::extracted_dir`
for this game; `tool n = some b` means the 7z invocation for mod `n` ran and
exited with success `b`, while `tool n = none` means the invocation itself
failed to run, which the source propagates with `?`, leaving the remaining
mods unprocessed.  The second component is the success flag of the whole
call. -/
def extractLoop (ed : String → Path) (tool : String → Option Bool) :
    List (String × ManagedMod) → List (String × ManagedMod) × Bool
  | [] => ([], true)
  | (name, mm) :: rest =>
    if mm.enabled && mm.extracted.isNone then
      match tool name with
      | none => ((name, mm) :: rest, false)
      | some ok =>
        let mm' := if ok then { mm with extracted := some (ed name) } else mm
        ((name, mm') :: (extractLoop ed tool rest).1, (extractLoop ed tool rest).2)
    else
      ((name, mm) :: (extractLoop ed tool rest).1, (extractLoop ed tool rest).2)

/-- Mirrors the install-folder computation inside `Game::install`: recorded
parts win; otherwise a found `ModuleConfig.xml` defers to the FOMOD selector
whose result is persisted into `parts`; otherwise the extraction root is
deployed.  The last component records the selector invocation. -/
def installFolders (selector : Path → List Path) (name : String) (mm : ManagedMod)
    (extracted_dir : Path) (hasConfig : Bool) : List Path × ManagedMod × List String :=
  if !mm.parts.isEmpty then (mm.parts, mm, [])
  else if hasConfig then
    let paths := selector extracted_dir
    (paths, { mm with parts := paths }, [name])
  else ([extracted_dir], mm, [])

/-- Mirrors the per-file deployment inside `Game::install`: for each file
entry under `folder`, the destination `install_dir ++ rel` is linked to
`folder ++ rel`.  Both `fs::hard_link` and `symlink` fail when the
destination already exists, which the source propagates with `?`; the flag
records that failure and the links made before it are kept. -/
def linkEntries (install_dir folder : Path) :
    List FSEntry → List (Path × Path) → List (Path × Path) × Bool
  | [], tree => (tree, true)
  | e :: es, tree =>
    if e.isFile then
      let rel := e.path.drop folder.length
      let dst := install_dir ++ rel
      if tree.any (fun pr => pr.1 == dst) then (tree, false)
      else linkEntries install_dir folder es (tree ++ [(dst, folder ++ rel)])
    else linkEntries install_dir folder es tree

/-- Walks each install folder in order, linking its files; stops at the first
link failure. -/
def linkFolders (install_dir : Path) (fs : FS) :
    List Path → List (Path × Path) → List (Path × Path) × Bool
  | [], tree => (tree, true)
  | f :: rest, tree =>
    let linked := linkEntries install_dir f (walk fs f) tree
    if linked.2 then linkFolders install_dir fs rest linked.1
    else (linked.1, false)

/-- Result of a run of the installer: the updated mods (with any persisted
`parts`), the install tree as destination-source link pairs, the names for
which the FOMOD selector was invoked, and the success flag. -/
structure InstallState where
  mods : List (String × ManagedMod)
  tree : List (Path × Path)
  invoked : List String
  ok : Bool
deriving DecidableEq

/-- Mirrors the loop of `Game::install` over an install tree modelled as a
list of (destination, source) link pairs.  Only mods that are enabled and
extracted are deployed; the `ModuleConfig.xml` search runs over the walk of
the extraction tree; a link failure aborts the loop, keeping the mutations
made so far, matching `?` on `&mut self`. -/
def installLoop (install_dir : Path) (fs : FS) (selector : Path → List Path) :
    List (String × ManagedMod) → List (Path × Path) → InstallState
  | [], tree => ⟨[], tree, [], true⟩
  | (name, mm) :: rest, tree =>
    match mm.extracted, mm.enabled with
    | some extracted_dir, true =>
      let hasConfig := (walk fs extracted_dir).any
        (fun e => e.path.getLast? == some "ModuleConfig.xml")
      let trip := installFolders selector name mm extracted_dir hasConfig
      let linked := linkFolders install_dir fs trip.1 tree
      if linked.2 then
        let s := installLoop install_dir fs selector rest linked.1
        ⟨(name, trip.2.1) :: s.mods, s.tree, trip.2.2 ++ s.invoked, s.ok⟩
      else ⟨(name, trip.2.1) :: rest, linked.1, trip.2.2, false⟩
    | _, _ =>
      let s := installLoop install_dir fs selector rest tree
      ⟨(name, mm) :: s.mods, s.tree, s.invoked, s.ok⟩

/-- Mirrors the per-entry body of `Game::write_plugins`: a line is written
for every walk entry whose final component has extension `esp`, `esm` or
`esl`, prefixed with a star. -/
def pluginLine (e : FSEntry) : Option String :=
  match e.path.getLast? with
  | none => none
  | some base =>
    match extension base with
    | none => none
    | some ext =>
      if (["esp", "esm", "esl"] : List String).contains ext then some ("*" ++ base)
      else none

/-- Appends the line for one walk entry, if any, to the written file. -/
def writeEntryLines (acc : List String) (e : FSEntry) : List String :=
  match pluginLine e with
  | some line => acc ++ [line]
  | none => acc

/-- Writes the lines of one source root, in walk order. -/
def writeRootLines (fs : FS) (acc : List String) (root : Path) : List String :=
  (walk fs root).foldl writeEntryLines acc

/-- Mirrors the loop of `Game::write_plugins`: enabled mods in order, each
source root of `part_paths` in order, each walk entry in order. -/
def writePluginsLoop (fs : FS) : List (String × ManagedMod) → List String → List String
  | [], file => file
  | (_, mm) :: rest, file =>
    if mm.enabled then
      writePluginsLoop fs rest (mm.part_paths.foldl (writeRootLines fs) file)
    else writePluginsLoop fs rest file

/-- Mirrors `Game::write_plugins`: when a plugins file is configured it is
created fresh (truncated) and receives the accumulated lines; otherwise
nothing is written. -/
def Game.write_plugins (fs : FS) (g : Game) : Option (List String) :=
  match g.config.plugins_file with
  | some _ => some (writePluginsLoop fs g.config.mods [])
  | none => none

/-- Declarative form of the manifest the code produces: for each enabled mod
in order, for each source root in order, one line per walk entry (file or
directory) whose extension is `esp`, `esm` or `esl`. -/
def manifestSpec (fs : FS) (mods : List (String × ManagedMod)) : List String :=
  mods.flatMap (fun p =>
    if p.2.enabled then
      p.2.part_paths.flatMap (fun root => (walk fs root).filterMap pluginLine)
    else [])

/-- The manifest as claim C6 words it, restricted to regular files: one line
per walked regular file whose extension is `esp`, `esm` or `esl`. -/
def manifestFilesOnly (fs : FS) (mods : List (String × ManagedMod)) : List String :=
  mods.flatMap (fun p =>
    if p.2.enabled then
      p.2.part_paths.flatMap (fun root =>
        ((walk fs root).filter (fun e => e.isFile)).filterMap pluginLine)
    else [])

/-! Helper lemmas shared by several claims. -/

/-- The empty pattern occurs in every string. -/
lemma containsSub_nil_pat (hay : List Char) : containsSub hay [] = true := by
  cases hay <;> simp [containsSub, listStarts]

/-- A successful `find?` splits the list at the first match. -/
lemma find?_first {α : Type} (p : α → Bool) :
    ∀ (l : List α) (a : α), l.find? p = some a →
      ∃ pre post, l = pre ++ a :: post ∧ p a = true ∧ ∀ x ∈ pre, p x = false := by
  intro l
  induction l with
  | nil => intro a h; simp at h
  | cons b t ih =>
    intro a h
    by_cases hb : p b = true
    · rw [List.find?_cons_of_pos _ hb] at h
      obtain rfl : b = a := by injection h
      exact ⟨[], t, rfl, hb, by simp⟩
    · rw [List.find?_cons_of_neg _ (by simpa using hb)] at h
      obtain ⟨pre, post, rfl, hpa, hpre⟩ := ih a h
      refine ⟨b :: pre, post, rfl, hpa, ?_⟩
      intro x hx
      rcases List.mem_cons.mp hx with rfl | hx
      · simpa using hb
      · exact hpre x hx

/-- Claim C4: `part_paths` returns `parts` verbatim when `parts` is
non-empty; otherwise the one-element list `[extracted]` when `extracted` is
set, and the empty list when it is not. -/
theorem part_paths_spec (m : ManagedMod) :
    (m.parts ≠ [] → m.part_paths = m.parts) ∧
    (m.parts = [] → ∀ e, m.extracted = some e → m.part_paths = [e]) ∧
    (m.parts = [] → m.extracted = none → m.part_paths = []) := by
  unfold ManagedMod.part_paths
  refine ⟨fun h => ?_, fun h e he => ?_, fun h he => ?_⟩
  · simp [List.isEmpty_iff, h]
  · simp [List.isEmpty_iff, h, he]
  · simp [List.isEmpty_iff, h, he]

/-- Witness for C4 at concrete mods, one per case of the claim. -/
theorem part_paths_spec_witness :
    ManagedMod.part_paths ⟨false, none, [], [["p"]]⟩ = [["p"]] ∧
    ManagedMod.part_paths ⟨false, some ["e"], [], []⟩ = [["e"]] ∧
    ManagedMod.part_paths ⟨false, none, [], []⟩ = [] :=
  ⟨(part_paths_spec ⟨false, none, [], [["p"]]⟩).1 (by decide),
   (part_paths_spec ⟨false, some ["e"], [], []⟩).2.1 rfl ["e"] rfl,
   (part_paths_spec ⟨false, none, [], []⟩).2.2 rfl rfl⟩

/-- Claim C5: `install_dir` is `game_folder` when `data_folder` is absent and
`game_folder` joined with `data_folder` when it is present. -/
theorem install_dir_spec (g : Game) :
    (g.config.data_folder = none → g.install_dir = g.config.game_folder) ∧
    ∀ d, g.config.data_folder = some d → g.install_dir = g.config.game_folder ++ d := by
  unfold Game.install_dir
  constructor
  · intro h; rw [h]
  · intro d h; rw [h]

/-- Witness for C5 at a concrete game, both cases of the claim. -/
theorem install_dir_spec_witness :
    Game.install_dir ⟨"g", ⟨["gf"], none, none, .Hardlink, []⟩⟩ = ["gf"] ∧
    Game.install_dir ⟨"g", ⟨["gf"], some ["Data"], none, .Hardlink, []⟩⟩ = ["gf", "Data"] :=
  ⟨(install_dir_spec ⟨"g", ⟨["gf"], none, none, .Hardlink, []⟩⟩).1 rfl,
   (install_dir_spec ⟨"g", ⟨["gf"], some ["Data"], none, .Hardlink, []⟩⟩).2 ["Data"] rfl⟩

/-- Claim C3: `get_mod` returns the first entry, in insertion order, whose
lowercased name contains the lowercased query, and `UnknownMod` exactly when
no entry matches. -/
theorem get_mod_spec (g : Game) (q : String) :
    (∀ nm mm, g.get_mod q = .ok (nm, mm) →
       ∃ pre post, g.config.mods = pre ++ (nm, mm) :: post ∧
         strContains (strToLower nm) (strToLower q) = true ∧
         ∀ r ∈ pre, strContains (strToLower r.1) (strToLower q) = false) ∧
    ((∀ r ∈ g.config.mods, strContains (strToLower r.1) (strToLower q) = false) ↔
       g.get_mod q = .error (.UnknownMod (strToLower q))) := by
  constructor
  · intro nm mm h
    unfold Game.get_mod at h
    cases hf : g.config.mods.find? (fun p => strContains (strToLower p.1) (strToLower q)) with
    | none => rw [hf] at h; exact absurd h (by simp)
    | some r =>
      rw [hf] at h
      have hr : r = (nm, mm) := by simpa using h
      subst hr
      exact find?_first _ _ _ hf
  · constructor
    · intro hall
      unfold Game.get_mod
      have hnone : g.config.mods.find?
          (fun p => strContains (strToLower p.1) (strToLower q)) = none :=
        List.find?_eq_none.mpr (fun x hx => by simp [hall x hx])
      rw [hnone]
    · intro h r hr
      unfold Game.get_mod at h
      cases hf : g.config.mods.find? (fun p => strContains (strToLower p.1) (strToLower q)) with
      | none => simpa using List.find?_eq_none.mp hf r hr
      | some s => rw [hf] at h; exact absurd h (by simp)

/-- Witness for C3: a middle entry is found by a case-insensitive substring
query, and an unmatched query yields `UnknownMod` of the lowercased query. -/
theorem get_mod_spec_witness :
    (∃ pre post,
        (Game.mk "g" ⟨["gf"], none, none, .Hardlink,
            [("Xray", ManagedMod.new ["x"]), ("aBc", ManagedMod.new ["y"])]⟩).config.mods =
          pre ++ ("aBc", ManagedMod.new ["y"]) :: post ∧
        strContains (strToLower "aBc") (strToLower "B") = true ∧
        ∀ r ∈ pre, strContains (strToLower r.1) (strToLower "B") = false) ∧
    Game.get_mod ⟨"g", ⟨["gf"], none, none, .Hardlink, [("Xray", ManagedMod.new ["x"])]⟩⟩ "zz"
      = .error (.UnknownMod (strToLower "zz")) :=
  ⟨(get_mod_spec (Game.mk "g" ⟨["gf"], none, none, .Hardlink,
        [("Xray", ManagedMod.new ["x"]), ("aBc", ManagedMod.new ["y"])]⟩) "B").1
      "aBc" (ManagedMod.new ["y"]) rfl,
   (get_mod_spec (Game.mk "g" ⟨["gf"], none, none, .Hardlink,
        [("Xray", ManagedMod.new ["x"])]⟩) "zz").2.mp (by decide)⟩

/-- Claim C9: the empty query matches every name, so `get_mod ""` returns the
first mod in insertion order, and `UnknownMod` only when no mod is managed. -/
theorem get_mod_empty_query (g : Game) :
    (∀ p rest, g.config.mods = p :: rest → g.get_mod "" = .ok p) ∧
    (g.config.mods = [] → g.get_mod "" = .error (.UnknownMod "")) := by
  have hnil : ∀ s : String, strContains s "" = true := by
    intro s
    unfold strContains
    exact containsSub_nil_pat s.data
  constructor
  · intro p rest h
    unfold Game.get_mod
    have hp : (fun r : String × ManagedMod =>
        strContains (strToLower r.1) (strToLower "")) p = true :=
      hnil (strToLower p.1)
    rw [h, List.find?_cons_of_pos rest hp]
  · intro h
    unfold Game.get_mod
    rw [h]
    rfl

/-- Witness for C9: a two-mod game answers the empty query with its first
mod, and an empty game answers `UnknownMod`. -/
theorem get_mod_empty_query_witness :
    Game.get_mod ⟨"g", ⟨["gf"], none, none, .Hardlink,
        [("alpha", ManagedMod.new ["a"]), ("beta", ManagedMod.new ["b"])]⟩⟩ ""
      = .ok ("alpha", ManagedMod.new ["a"]) ∧
    Game.get_mod ⟨"g", ⟨["gf"], none, none, .Hardlink, []⟩⟩ ""
      = .error (.UnknownMod "") :=
  ⟨(get_mod_empty_query ⟨"g", ⟨["gf"], none, none, .Hardlink,
        [("alpha", ManagedMod.new ["a"]), ("beta", ManagedMod.new ["b"])]⟩⟩).1
      ("alpha", ManagedMod.new ["a"]) [("beta", ManagedMod.new ["b"])] rfl,
   (get_mod_empty_query ⟨"g", ⟨["gf"], none, none, .Hardlink, []⟩⟩).2 rfl⟩

/-- Claim C2: when every external invocation actually runs and exits, extract
raises no error, and `extracted` is set to the extraction directory exactly
for the processed mods (enabled, not yet extracted) whose invocation exited
successfully; mods whose invocation exited unsuccessfully are left unset and
processing continues with the next mod. -/
theorem extract_spec (ed : String → Path) (tool : String → Option Bool)
    (mods : List (String × ManagedMod)) (h : ∀ n, (tool n).isSome) :
    (extractLoop ed tool mods).2 = true ∧
    (extractLoop ed tool mods).1 = mods.map (fun p =>
      (p.1, if p.2.enabled && p.2.extracted.isNone then
              (if tool p.1 = some true then { p.2 with extracted := some (ed p.1) } else p.2)
            else p.2)) := by
  induction mods with
  | nil => exact ⟨rfl, rfl⟩
  | cons p rest ih =>
    obtain ⟨name, mm⟩ := p
    by_cases hc : (mm.enabled && mm.extracted.isNone) = true
    · have he : mm.enabled = true := ((Bool.and_eq_true _ _).mp hc).1
      have hn : mm.extracted = none :=
        Option.isNone_iff_eq_none.mp ((Bool.and_eq_true _ _).mp hc).2
      obtain ⟨b, hb⟩ := Option.isSome_iff_exists.mp (h name)
      cases b with
      | true =>
        refine ⟨by simp [extractLoop, hc, hb, ih.1], ?_⟩
        simp [extractLoop, hc, hb, he, hn, ih.2]
      | false =>
        refine ⟨by simp [extractLoop, hc, hb, ih.1], ?_⟩
        simp [extractLoop, hc, hb, he, hn, ih.2]
    · have hc2 : ¬ (mm.enabled = true ∧ mm.extracted = none) := by
        simpa [Bool.and_eq_true, Option.isNone_iff_eq_none] using hc
      refine ⟨by simp [extractLoop, hc, ih.1], ?_⟩
      simp [extractLoop, hc, hc2, ih.2]

/-- Witness for C2: with an always-successful tool, the enabled unextracted
mod gets its extraction directory recorded, the disabled mod is untouched,
and no error is raised. -/
theorem extract_spec_witness :
    (extractLoop (fun n => ["lib", "g", "extracted", n]) (fun _ => some true)
        [("a", ⟨true, none, ["dl", "a.7z"], []⟩), ("b", ⟨false, none, ["dl", "b.7z"], []⟩)]).2
      = true ∧
    (extractLoop (fun n => ["lib", "g", "extracted", n]) (fun _ => some true)
        [("a", ⟨true, none, ["dl", "a.7z"], []⟩), ("b", ⟨false, none, ["dl", "b.7z"], []⟩)]).1
      = [("a", ⟨true, some ["lib", "g", "extracted", "a"], ["dl", "a.7z"], []⟩),
         ("b", ⟨false, none, ["dl", "b.7z"], []⟩)] := by
  have h := extract_spec (fun n => ["lib", "g", "extracted", n]) (fun _ => some true)
      [("a", ⟨true, none, ["dl", "a.7z"], []⟩), ("b", ⟨false, none, ["dl", "b.7z"], []⟩)]
      (fun _ => rfl)
  exact ⟨h.1, by rw [h.2]; rfl⟩

/-- Claim C7: `init_game` fails with `AlreadyManaged` when the name is known
and leaves the state unchanged; otherwise the name joins the games set and
becomes active (whatever the save and mkdir oracles do), so a second
`init_game` with the same name returns `AlreadyManaged` of that name. -/
theorem init_game_spec (g : GlobalConfig) (name : String) (folder : Path)
    (data plugins : Option Path) (save : Game → Bool) (mkdir : String → Bool) :
    (g.games.contains name = true →
       g.init_game name folder data plugins save mkdir = (g, .error (.AlreadyManaged name))) ∧
    (g.games.contains name = false →
       (g.init_game name folder data plugins save mkdir).1.games.contains name = true ∧
       (g.init_game name folder data plugins save mkdir).1.active_game = some name ∧
       ∀ folder2 data2 plugins2 save2 mkdir2,
         ((g.init_game name folder data plugins save mkdir).1.init_game
             name folder2 data2 plugins2 save2 mkdir2).2 =
           .error (.AlreadyManaged name)) := by
  constructor
  · intro hc
    unfold GlobalConfig.init_game
    rw [if_pos hc]
  · intro hc
    have hnc : ¬ (g.games.contains name = true) := by rw [hc]; exact Bool.false_ne_true
    have hsi : (setInsert g.games name).contains name = true := by
      unfold setInsert
      rw [if_neg hnc]
      simp [List.contains_cons]
    have h1 : (g.init_game name folder data plugins save mkdir).1 =
        ⟨some name, setInsert g.games name⟩ := by
      unfold GlobalConfig.init_game
      rw [if_neg hnc]
    refine ⟨by rw [h1]; exact hsi, by rw [h1], ?_⟩
    intro folder2 data2 plugins2 save2 mkdir2
    rw [h1]
    unfold GlobalConfig.init_game
    rw [if_pos hsi]

/-- Witness for C7: initializing "skyrim" in a fresh state registers and
activates it, a second initialization fails with `AlreadyManaged`, and
initializing an already-known name fails immediately. -/
theorem init_game_spec_witness :
    (GlobalConfig.init_game ⟨none, []⟩ "skyrim" ["gf"] none none (fun _ => true)
        (fun _ => true)).1.games.contains "skyrim" = true ∧
    (GlobalConfig.init_game ⟨none, []⟩ "skyrim" ["gf"] none none (fun _ => true)
        (fun _ => true)).1.active_game = some "skyrim" ∧
    ((GlobalConfig.init_game ⟨none, []⟩ "skyrim" ["gf"] none none (fun _ => true)
          (fun _ => true)).1.init_game "skyrim" ["gf2"] none none (fun _ => true)
        (fun _ => true)).2 = .error (.AlreadyManaged "skyrim") ∧
    GlobalConfig.init_game ⟨none, ["skyrim"]⟩ "skyrim" ["gf"] none none (fun _ => true)
        (fun _ => true) = (⟨none, ["skyrim"]⟩, .error (.AlreadyManaged "skyrim")) := by
  have h := (init_game_spec ⟨none, []⟩ "skyrim" ["gf"] none none (fun _ => true)
      (fun _ => true)).2 (by decide)
  exact ⟨h.1, h.2.1, h.2.2 ["gf2"] none none (fun _ => true) (fun _ => true),
    (init_game_spec ⟨none, ["skyrim"]⟩ "skyrim" ["gf"] none none (fun _ => true)
        (fun _ => true)).1 (by decide)⟩

/-- Selector invocations recorded by the folder computation only happen for a
mod whose recorded parts list is empty. -/
lemma installFolders_invoked (selector : Path → List Path) (name : String)
    (mm : ManagedMod) (ed : Path) (hc : Bool) :
    ∀ n ∈ (installFolders selector name mm ed hc).2.2, n = name ∧ mm.parts = [] := by
  intro n hn
  cases hp : mm.parts.isEmpty with
  | false => simp [installFolders, hp] at hn
  | true =>
    cases hc with
    | false => simp [installFolders, hp] at hn
    | true =>
      simp [installFolders, hp] at hn
      exact ⟨hn, List.isEmpty_iff.mp hp⟩

/-- Claim C8: when a mod's `parts` list is non-empty the installer uses it
verbatim as the install folders, leaves the mod unchanged and does not invoke
the FOMOD selector, whatever the `ModuleConfig.xml` search found; globally,
every selector invocation recorded by a run of the installer belongs to a mod
whose `parts` was empty, so a redeploy after `parts` was populated does not
invoke the selector again. -/
theorem install_parts_override :
    (∀ selector name mm ed hc, mm.parts ≠ [] →
       installFolders selector name mm ed hc = (mm.parts, mm, [])) ∧
    (∀ install_dir fs selector mods tree name,
       name ∈ (installLoop install_dir fs selector mods tree).invoked →
       ∃ mm, (name, mm) ∈ mods ∧ mm.parts = []) := by
  constructor
  · intro selector name mm ed hc hp
    have hpe : mm.parts.isEmpty = false := by
      cases hq : mm.parts with
      | nil => exact absurd hq hp
      | cons a t => rfl
    simp [installFolders, hpe]
  · intro install_dir fs selector mods
    induction mods with
    | nil => intro tree name hmem; simp [installLoop] at hmem
    | cons p rest ih =>
      obtain ⟨nm, mm⟩ := p
      intro tree name hmem
      cases hext : mm.extracted with
      | none =>
        simp only [installLoop, hext] at hmem
        obtain ⟨mm', hmem', hp'⟩ := ih tree name hmem
        exact ⟨mm', List.mem_cons_of_mem _ hmem', hp'⟩
      | some ed =>
        cases hen : mm.enabled with
        | false =>
          simp only [installLoop, hext, hen] at hmem
          obtain ⟨mm', hmem', hp'⟩ := ih tree name hmem
          exact ⟨mm', List.mem_cons_of_mem _ hmem', hp'⟩
        | true =>
          simp only [installLoop, hext, hen] at hmem
          by_cases hl : (linkFolders install_dir fs
              (installFolders selector nm mm ed
                ((walk fs ed).any
                  (fun e => e.path.getLast? == some "ModuleConfig.xml"))).1 tree).2 = true
          · rw [if_pos hl] at hmem
            rcases List.mem_append.mp hmem with hin | hin
            · obtain ⟨rfl, hp'⟩ := installFolders_invoked _ _ _ _ _ _ hin
              exact ⟨mm, List.mem_cons_self _ _, hp'⟩
            · obtain ⟨mm', hmem', hp'⟩ := ih _ name hin
              exact ⟨mm', List.mem_cons_of_mem _ hmem', hp'⟩
          · rw [if_neg hl] at hmem
            obtain ⟨rfl, hp'⟩ := installFolders_invoked _ _ _ _ _ _ hmem
            exact ⟨mm, List.mem_cons_self _ _, hp'⟩

/-- Witness for C8: a mod with recorded parts is deployed from them verbatim
with no selector invocation, and in a run whose only invocation is for mod
"c", that mod indeed had empty parts. -/
theorem install_parts_override_witness :
    installFolders (fun _ => [["sel"]]) "a"
        ⟨true, some ["e", "a"], ["dl"], [["e", "a", "core"]]⟩ ["e", "a"] true =
      ([["e", "a", "core"]], ⟨true, some ["e", "a"], ["dl"], [["e", "a", "core"]]⟩, []) ∧
    (∃ mm, ("c", mm) ∈ [("c", (⟨true, some ["e", "c"], ["dl"], []⟩ : ManagedMod))] ∧
       mm.parts = []) :=
  ⟨install_parts_override.1 (fun _ => [["sel"]]) "a"
      ⟨true, some ["e", "a"], ["dl"], [["e", "a", "core"]]⟩ ["e", "a"] true (by decide),
   install_parts_override.2 ["g"] [⟨["e", "c", "ModuleConfig.xml"], true⟩]
      (fun _ => [["e", "c", "core"]])
      [("c", ⟨true, some ["e", "c"], ["dl"], []⟩)] [] "c" (by decide)⟩

/-- Claim C1 (evidence of the divergence): deploying two enabled, extracted
mods that both contribute `foo.txt` onto an empty install tree leaves the
first mod's link in place and makes the second link creation fail, because
the installer never removes an existing destination; install aborts instead
of realizing last-writer-wins. -/
theorem install_collision_fails :
    (installLoop ["g"] [⟨["e", "a", "foo.txt"], true⟩, ⟨["e", "b", "foo.txt"], true⟩]
        (fun _ => [])
        [("a", ⟨true, some ["e", "a"], ["dl", "a.7z"], []⟩),
         ("b", ⟨true, some ["e", "b"], ["dl", "b.7z"], []⟩)] []).ok = false ∧
    (installLoop ["g"] [⟨["e", "a", "foo.txt"], true⟩, ⟨["e", "b", "foo.txt"], true⟩]
        (fun _ => [])
        [("a", ⟨true, some ["e", "a"], ["dl", "a.7z"], []⟩),
         ("b", ⟨true, some ["e", "b"], ["dl", "b.7z"], []⟩)] []).tree =
      [(["g", "foo.txt"], ["e", "a", "foo.txt"])] := by
  decide

/-- Folding the per-entry writer appends exactly the matching lines. -/
lemma foldl_writeEntryLines (l : List FSEntry) (acc : List String) :
    l.foldl writeEntryLines acc = acc ++ l.filterMap pluginLine := by
  induction l generalizing acc with
  | nil => simp
  | cons e t ih =>
    cases h : pluginLine e with
    | none => simp [writeEntryLines, h, ih]
    | some line => simp [writeEntryLines, h, ih]

/-- Folding the per-root writer appends the roots' lines in order. -/
lemma foldl_writeRootLines (fs : FS) (roots : List Path) (acc : List String) :
    roots.foldl (writeRootLines fs) acc =
      acc ++ roots.flatMap (fun root => (walk fs root).filterMap pluginLine) := by
  induction roots generalizing acc with
  | nil => simp
  | cons r t ih => simp [writeRootLines, foldl_writeEntryLines, ih]

/-- The imperative writer loop produces the declarative manifest. -/
lemma writePluginsLoop_spec (fs : FS) (mods : List (String × ManagedMod))
    (file : List String) :
    writePluginsLoop fs mods file = file ++ manifestSpec fs mods := by
  induction mods generalizing file with
  | nil => simp [writePluginsLoop, manifestSpec]
  | cons p rest ih =>
    obtain ⟨nm, mm⟩ := p
    cases hen : mm.enabled with
    | false => simp [writePluginsLoop, manifestSpec, hen, ih]
    | true => simp [writePluginsLoop, manifestSpec, hen, ih, foldl_writeRootLines]

/-- Claim C6 as amended: when a plugins file is configured, `write_plugins`
truncates it and writes, for each enabled mod in mods order and each source
root of `part_paths()` in walk order, one star-prefixed basename line for
every walked entry (file or directory) whose extension is exactly `esp`,
`esm` or `esl`; disabled mods contribute nothing, duplicates are kept, and
nothing is written when no plugins file is configured. -/
theorem write_plugins_spec (fs : FS) (g : Game) :
    Game.write_plugins fs g =
      g.config.plugins_file.map (fun _ => manifestSpec fs g.config.mods) := by
  cases hpf : g.config.plugins_file with
  | none => unfold Game.write_plugins; rw [hpf]; rfl
  | some f =>
    unfold Game.write_plugins
    rw [hpf]
    simp [writePluginsLoop_spec]

/-- Counterexample to C6 as stated: a *directory* named `d.esp` under an
enabled mod's extraction root yields a manifest line, although no regular
file with a plugin extension exists, so the lines are not exactly those of
the walked regular files. -/
theorem write_plugins_dir_entry_counterexample :
    Game.write_plugins [⟨["e", "a", "d.esp"], false⟩]
        ⟨"g", ⟨["gf"], none, some ["p.txt"], .Hardlink,
          [("a", ⟨true, some ["e", "a"], ["dl"], []⟩)]⟩⟩ = some ["*d.esp"] ∧
    manifestFilesOnly [⟨["e", "a", "d.esp"], false⟩]
        [("a", ⟨true, some ["e", "a"], ["dl"], []⟩)] = [] := by
  decide

/-- Replacing the value of a key that occurs nowhere in a list leaves the
list unchanged. -/
lemma map_replace_skip (name : String) (v : ManagedMod)
    (l : List (String × ManagedMod)) (h : ∀ q ∈ l, q.1 ≠ name) :
    l.map (fun q => if q.1 == name then (name, v) else q) = l := by
  induction l with
  | nil => rfl
  | cons a t ih =>
    have ha : (a.1 == name) = false := by
      simpa using h a (List.mem_cons_self _ _)
    rw [List.map_cons, ha, if_neg Bool.false_ne_true,
      ih (fun q hq => h q (List.mem_cons_of_mem _ hq))]

/-- Claim C10: adding an archive whose stem names an already-managed mod
replaces that mod's record with a fresh `ManagedMod` (enabled `false`,
extracted `none`, parts `[]`, archive pointing at the downloads copy) while
keeping its original position in the mods order. -/
theorem add_existing_keeps_position (downloads : Path)
    (pre post : List (String × ManagedMod)) (name : String) (old : ManagedMod)
    (p : Path) (fn : String)
    (hpre : ∀ q ∈ pre, q.1 ≠ name) (hpost : ∀ q ∈ post, q.1 ≠ name)
    (hfn : p.getLast? = some fn) (hstem : fileStem fn = name) :
    addMods downloads (pre ++ (name, old) :: post) [p] =
      pre ++ (name, ManagedMod.new (downloads ++ [fn])) :: post ∧
    (ManagedMod.new (downloads ++ [fn])).enabled = false ∧
    (ManagedMod.new (downloads ++ [fn])).extracted = none ∧
    (ManagedMod.new (downloads ++ [fn])).parts = [] := by
  refine ⟨?_, rfl, rfl, rfl⟩
  unfold addMods
  simp only [List.foldl_cons, List.foldl_nil, hfn, hstem]
  have hany : (pre ++ (name, old) :: post).any (fun q => q.1 == name) = true :=
    List.any_eq_true.mpr
      ⟨(name, old), List.mem_append_right _ (List.mem_cons_self _ _), by simp⟩
  unfold indexInsert
  rw [if_pos hany, List.map_append, List.map_cons,
    map_replace_skip name _ pre hpre, map_replace_skip name _ post hpost]
  simp

/-- Witness for C10: re-adding `modb.7z` while `modb` sits in the middle of
three mods resets its record in place. -/
theorem add_existing_keeps_position_witness :
    addMods ["lib", "g", "downloads"]
        [("aaa", ManagedMod.new ["x"]), ("modb", ⟨true, some ["e"], ["y"], [["p"]]⟩),
         ("ccc", ManagedMod.new ["z"])]
        [["tmp", "modb.7z"]] =
      [("aaa", ManagedMod.new ["x"]),
       ("modb", ManagedMod.new ["lib", "g", "downloads", "modb.7z"]),
       ("ccc", ManagedMod.new ["z"])] :=
  (add_existing_keeps_position ["lib", "g", "downloads"]
      [("aaa", ManagedMod.new ["x"])] [("ccc", ManagedMod.new ["z"])] "modb"
      ⟨true, some ["e"], ["y"], [["p"]]⟩ ["tmp", "modb.7z"] "modb.7z"
      (by decide) (by decide) rfl (by decide)).1

end Climm
